import Mathlib

/-!
# Verification of the term-table layout/rendering engine

This file is a shallow embedding, in Lean 4, of the core of the `term-table`
crate (`src/lib.rs`): the `ColumnLayout` rendering policy, the `Column`
width-aggregation cell, `RowLayout` composition, and the `Renderer`'s
buffering, width aggregation and ordered flush.

Modelling conventions:

* Rust `String` values are modelled as their sequence of visible characters
  (`Str := List Char`).  The external width measurer (the `termchars` crate,
  an out-of-scope collaborator consumed through the interface described in
  the specification: `visible_width` counts user-perceptible characters and
  `truncate` keeps the first `n` of them) is therefore `List.length` and
  `List.take` on these sequences; escape sequences, which the engine only
  passes through, are abstracted away.
* `Rc<RefCell<Column>>` cells are modelled as a heap: a `List Column` store
  carried in the `Renderer`, with `RowLayout.columns` holding indices into
  that store.  Sharing a cell between two row layouts is sharing an index.
* `VecDeque` is a `List` whose head is the front: `push_back` appends,
  `pop_front` takes the head.
* A Rust function that appends text to a caller-supplied `&mut String`
  buffer is modelled as returning the appended text; the caller concatenates
  the pieces in the same order as the original `push`/`push_str` calls.
* A `panic!`-style abort (`panic!`, `unwrap`, `expect`) is modelled by
  returning `none` from an `Option`-valued function.
-/

/-- A Rust `String`, as its sequence of visible characters. -/
abbrev Str := List Char

/-- `usize::MAX` on a 64-bit target, the initial `min` of a fresh `Column`. -/
def usizeMax : Nat := 2 ^ 64 - 1

/-- `enum Pos` from `src/lib.rs`: placement of padding relative to content. -/
inductive Pos where
  | Left
  | Middle
  | Right
deriving DecidableEq

/-- `struct ColumnLayout` from `src/lib.rs`. -/
structure ColumnLayout where
  lower_bound : Nat
  upper_bound : Option Nat
  pos : Pos
  pad_char : Char
deriving DecidableEq

/-- `ColumnLayout::align` from `src/lib.rs`. -/
def ColumnLayout.align (pos : Pos) (pad_char : Char) : ColumnLayout :=
  { lower_bound := 0, upper_bound := none, pos := pos, pad_char := pad_char }

/-- `ColumnLayout::fixed_width` from `src/lib.rs`. -/
def ColumnLayout.fixed_width (width : Nat) (pad_char : Char) : ColumnLayout :=
  { lower_bound := width, upper_bound := some width, pos := Pos.Right, pad_char := pad_char }

/-- `ColumnLayout::render` from `src/lib.rs` (lines 65-118).  The Rust
function appends to `out`; here the appended text is returned.  The
`min > max` abort is `none`. -/
def ColumnLayout.render (c : ColumnLayout) (min max : Nat) (value : Str) : Option Str :=
  if min > max then
    none
  else
    let count := value.length
    let adjusted_upper_bound :=
      match c.upper_bound with
      | none => max
      | some ub => Nat.min ub max
    let adjusted_lower_bound := Nat.max c.lower_bound max
    let truncated :=
      if count > adjusted_upper_bound then value.take adjusted_upper_bound
      else value.take count
    let pads_needed :=
      if adjusted_lower_bound > count then adjusted_lower_bound - count else 0
    some (match c.pos with
    | Pos.Right => List.replicate pads_needed c.pad_char ++ truncated
    | Pos.Left => truncated ++ List.replicate pads_needed c.pad_char
    | Pos.Middle =>
      let pad_count := pads_needed / 2
      List.replicate pad_count c.pad_char ++ truncated ++
        List.replicate pad_count c.pad_char ++
        (if pad_count % 2 = 1 then [c.pad_char] else []))

/-- `struct Column` from `src/lib.rs`: a layout plus the running width
extrema.  In Rust a `Column` lives behind `Rc<RefCell<...>>`; here the cells
live in a `List Column` store and are addressed by index. -/
structure Column where
  layout : ColumnLayout
  min : Nat
  max : Nat
deriving DecidableEq

/-- `Column::new` from `src/lib.rs`: fresh extrema are `usize::MAX` and `0`. -/
def Column.new (layout : ColumnLayout) : Column :=
  { layout := layout, min := usizeMax, max := 0 }

/-- `Column::render` from `src/lib.rs`: renders with the aggregated bounds. -/
def Column.render (col : Column) (value : Str) : Option Str :=
  col.layout.render col.min col.max value

/-- Update the column cell at index `i` of the store (a `borrow_mut` on the
`Rc<RefCell<Column>>` it models; indices produced by the engine are always
in bounds, so the out-of-bounds branch is never taken on reachable states). -/
def modifyCol (store : List Column) (i : Nat) (f : Column → Column) : List Column :=
  match store[i]? with
  | none => store
  | some c => store.set i (f c)

/-- `struct RowLayout` from `src/lib.rs`.  `columns` holds the indices of
the shared `Column` cells in the store. -/
structure RowLayout where
  start : Str
  «end» : Str
  sep : Str
  columns : List Nat
deriving DecidableEq

/-- `RowLayout::new` from `src/lib.rs`. -/
def RowLayout.new : RowLayout :=
  { start := [], «end» := [], sep := [], columns := [] }

/-- `RowLayout::reset` from `src/lib.rs` (lines 190-196): restore every
referenced column cell to `min = usize::MAX`, `max = 0`. -/
def RowLayout.reset (row : RowLayout) (store : List Column) : List Column :=
  row.columns.foldl
    (fun s ci => modifyCol s ci (fun col => { col with min := usizeMax, max := 0 }))
    store

/-- `struct Renderer` from `src/lib.rs`, together with the store of shared
column cells (`columns`) that in Rust lives behind the `Rc` pointers. -/
structure Renderer where
  columns : List Column
  rules : List (RowLayout × List (List Str))
  newline : Str
  begin : Str
  «end» : Str
  write_logs : List Nat
deriving DecidableEq

/-- `Renderer::new` from `src/lib.rs`. -/
def Renderer.new : Renderer :=
  { columns := [], rules := [], newline := ['\n'], begin := [], «end» := []
  , write_logs := [] }

/-- `Renderer::register_layout` from `src/lib.rs` (lines 240-245). -/
def Renderer.register_layout (r : Renderer) (layout : RowLayout) : Nat × Renderer :=
  let new_id := r.rules.length
  let count := layout.columns.length
  (new_id, { r with rules := r.rules ++ [(layout, List.replicate count [])] })

/-- `Renderer::write_to_layout` from `src/lib.rs` (lines 247-267).  On a
registered handle with matching dimensions it observes each value's visible
width into the shared column cells, enqueues the raw values, and appends the
handle to the write log; otherwise it is a no-op. -/
def Renderer.write_to_layout (r : Renderer) (layout : Nat) (data : List Str) : Renderer :=
  match r.rules[layout]? with
  | none => r
  | some (d, cols_dat) =>
    if d.columns.length = data.length ∧ cols_dat.length = data.length then
      let store := (d.columns.zip data).foldl
        (fun s p => modifyCol s p.1 (fun col =>
          { col with min := Nat.min col.min p.2.length
                   , max := Nat.max col.max p.2.length })) r.columns
      let cols_dat := (cols_dat.zip data).map (fun p => p.1 ++ [p.2])
      { r with columns := store
             , rules := r.rules.set layout (d, cols_dat)
             , write_logs := r.write_logs ++ [layout] }
    else r

/-- The per-row column loop of `Renderer::flush` (lines 282-292): walk the
queues zipped with the column indices, emitting the separator between
cells, popping the front value of each queue and rendering it with the
column's aggregated bounds.  Returns the emitted text and the drained
queues; `none` models the `expect`/`borrow` aborts. -/
def flushCols (store : List Column) (sep : Str) :
    List (List Str) → List Nat → Bool → Option (Str × List (List Str))
  | [], _, _ => some ([], [])
  | q :: qs, [], _ => some ([], q :: qs)
  | q :: qs, ci :: cis, once =>
    let pre := if once then sep else []
    match q with
    | [] => none
    | v :: qrest =>
      match store[ci]? with
      | none => none
      | some col =>
        match col.render v with
        | none => none
        | some cell =>
          match flushCols store sep qs cis true with
          | none => none
          | some (rest, qs') => some (pre ++ cell ++ rest, qrest :: qs')

/-- The write-log loop of `Renderer::flush` (lines 272-294): drain the log
in FIFO order, emitting the configured newline between rows and framing
each row with its layout's start and end tokens.  Returns the emitted text
and the updated rules; `none` models the `unwrap`/`expect` aborts. -/
def flushLoop (newline : Str) (store : List Column) :
    List Nat → List (RowLayout × List (List Str)) → Bool →
    Option (Str × List (RowLayout × List (List Str)))
  | [], rules, _ => some ([], rules)
  | idx :: rest, rules, not_first_line =>
    let pre := if not_first_line then newline else []
    match rules[idx]? with
    | none => none
    | some (d, cols_dat) =>
      match flushCols store d.sep cols_dat d.columns false with
      | none => none
      | some (rowBody, cols_dat') =>
        match flushLoop newline store rest (rules.set idx (d, cols_dat')) true with
        | none => none
        | some (tail, rules') =>
          some (pre ++ d.start ++ rowBody ++ d.«end» ++ tail, rules')

/-- `Renderer::flush` from `src/lib.rs` (lines 269-300): drain the write
log rendering every buffered row, then reset every column cell reachable
from any registered layout. -/
def Renderer.flush (r : Renderer) : Option (Str × Renderer) :=
  match flushLoop r.newline r.columns r.write_logs r.rules false with
  | none => none
  | some (buf, rules') =>
    let store := rules'.foldl (fun s rule => rule.1.reset s) r.columns
    some (buf, { r with columns := store, rules := rules', write_logs := [] })

/-- A sequence of `write_to_layout` calls, in order. -/
def writeAll (r : Renderer) (ws : List (Nat × List Str)) : Renderer :=
  ws.foldl (fun r p => r.write_to_layout p.1 p.2) r

/-! ## Specification-side definitions

The following definitions restate, in the specification's own words, the
quantities and shapes the natural-language spec talks about; the theorems
below relate them to the source-translated functions above. -/

/-- Spec 4.1: "Effective upper bound = `min(self.upper_bound or max, max)`". -/
def effectiveUpper (c : ColumnLayout) (max : Nat) : Nat :=
  Nat.min (c.upper_bound.getD max) max

/-- Spec 4.1: "Effective lower bound = `max(self.lower_bound, max)`". -/
def effectiveLower (c : ColumnLayout) (max : Nat) : Nat :=
  Nat.max c.lower_bound max

/-- The content after the single truncation step: the value truncated to the
effective upper bound when its visible width exceeds it, the full value
otherwise. -/
def truncContent (c : ColumnLayout) (max : Nat) (value : Str) : Str :=
  if value.length > effectiveUpper c max then value.take (effectiveUpper c max)
  else value

/-- The total padding budget `ColumnLayout::render` computes: the effective
lower bound minus the value's *original* visible width, floored at `0`
(`Nat` subtraction floors). -/
def padsNeeded (c : ColumnLayout) (max : Nat) (value : Str) : Nat :=
  effectiveLower c max - value.length

/-- The body of `ColumnLayout::render` after the two bound adjustments
(source lines 79-117), parameterized by the already-adjusted bounds. -/
def renderCore (c : ColumnLayout) (adjusted_lower_bound adjusted_upper_bound : Nat)
    (value : Str) : Str :=
  let count := value.length
  let truncated :=
    if count > adjusted_upper_bound then value.take adjusted_upper_bound
    else value.take count
  let pads_needed :=
    if adjusted_lower_bound > count then adjusted_lower_bound - count else 0
  match c.pos with
  | Pos.Right => List.replicate pads_needed c.pad_char ++ truncated
  | Pos.Left => truncated ++ List.replicate pads_needed c.pad_char
  | Pos.Middle =>
    let pad_count := pads_needed / 2
    List.replicate pad_count c.pad_char ++ truncated ++
      List.replicate pad_count c.pad_char ++
      (if pad_count % 2 = 1 then [c.pad_char] else [])

/-- Spec 4.4: "Join rows with the configured newline; no trailing newline
after the last row." -/
def joinRows (newline : Str) : List Str → Str
  | [] => []
  | [row] => row
  | row :: rows => row ++ newline ++ joinRows newline rows

/-- Helper relating the `not_first_line` flag of the flush loop to
`joinRows`: the text the loop emits when `not_first_line` is already set
carries a leading newline. -/
def joinPre : Bool → Str → List Str → Str
  | _, _, [] => []
  | false, newline, rows => joinRows newline rows
  | true, newline, rows => newline ++ joinRows newline rows

/-- Specification-side restatement of the flush loop (spec 4.4): drain the
write log in FIFO order, rendering one framed row per entry by popping the
front of each of that layout's column queues; the rows are returned as a
list, in log order. -/
def flushRowsSpec (store : List Column) :
    List Nat → List (RowLayout × List (List Str)) →
    Option (List Str × List (RowLayout × List (List Str)))
  | [], rules => some ([], rules)
  | idx :: rest, rules =>
    match rules[idx]? with
    | none => none
    | some (d, cols_dat) =>
      match flushCols store d.sep cols_dat d.columns false with
      | none => none
      | some (rowBody, cols_dat') =>
        match flushRowsSpec store rest (rules.set idx (d, cols_dat')) with
        | none => none
        | some (rows, rules') => some ((d.start ++ rowBody ++ d.«end») :: rows, rules')

/-- Spec 3/4.4: the write log holds "one entry per `write` call" that was
accepted, "preserving global submission order across all layouts".  Given
the per-handle column counts of the registered layouts, this is the list of
handles of the accepted writes, in call order. -/
def acceptedLog (counts : List Nat) : List (Nat × List Str) → List Nat
  | [] => []
  | w :: ws =>
    if counts[w.1]? = some w.2.length then w.1 :: acceptedLog counts ws
    else acceptedLog counts ws

/-- The column cell at index `ci` exists and was observed at least once
since the last reset (its extrema satisfy `min ≤ max`). -/
def colObserved (store : List Column) (ci : Nat) : Bool :=
  match store[ci]? with
  | none => false
  | some col => decide (col.min ≤ col.max)

/-- The column cell at index `ci` exists and is in its reset state. -/
def colReset (store : List Column) (ci : Nat) : Prop :=
  ∃ col, store[ci]? = some col ∧ col.min = usizeMax ∧ col.max = 0

/-- Bookkeeping invariant of the renderer, over its components: every
write-log entry targets a registered layout; every layout has one queue per
column, each holding exactly one pending value per write-log entry for that
layout; every referenced column cell exists; and the cells of a layout with
pending rows have been observed (`min ≤ max`). -/
def InvP (logs : List Nat) (rules : List (RowLayout × List (List Str)))
    (store : List Column) : Prop :=
  (∀ i ∈ logs, i < rules.length) ∧
  (∀ i, (h : i < rules.length) →
    rules[i].2.length = rules[i].1.columns.length ∧
    (∀ q ∈ rules[i].2, q.length = logs.count i) ∧
    (∀ ci ∈ rules[i].1.columns, ci < store.length) ∧
    (0 < logs.count i → ∀ ci ∈ rules[i].1.columns, colObserved store ci = true))

/-- Bookkeeping invariant of a `Renderer` value. -/
def RendererInv (r : Renderer) : Prop :=
  InvP r.write_logs r.rules r.columns

/-- A renderer in its initial (or just-flushed) configuration: empty write
log, one empty queue per column of each registered layout, and all
referenced column cells present in the store. -/
def ValidInit (r : Renderer) : Prop :=
  r.write_logs = [] ∧
  ∀ rule ∈ r.rules,
    rule.2.length = rule.1.columns.length ∧
    (∀ q ∈ rule.2, q = []) ∧
    (∀ ci ∈ rule.1.columns, ci < r.columns.length)

/-! ## Concrete scenarios used by the claims -/

/-- An unbounded left-aligned space-padded column, as in the spec's literal
scenario. -/
def unboundLeftCol : ColumnLayout := ColumnLayout.align Pos.Left ' '

/-- The renderer of the spec's literal scenario: one layout of two unbounded
left-aligned space-padded columns, separator `", "`, start `"["`, end `"]"`. -/
def c7renderer : Renderer :=
  { columns := [Column.new unboundLeftCol, Column.new unboundLeftCol]
  , rules := [({ start := ['[']
               , «end» := [']']
               , sep := [',', ' ']
               , columns := [0, 1] }, [[], []])]
  , newline := ['\n'], begin := [], «end» := [], write_logs := [] }

/-- A renderer with two layouts sharing column cell `0`: layout `0` has one
column, layout `1` has two. -/
def c1r0 : Renderer :=
  { columns := [Column.new (ColumnLayout.align Pos.Right '0'), Column.new unboundLeftCol]
  , rules := [({ start := [], «end» := [], sep := [], columns := [0] }, [[]]),
              ({ start := ['('], «end» := [')'], sep := ['|'], columns := [0, 1] }, [[], []])]
  , newline := ['\n'], begin := [], «end» := [], write_logs := [] }

/-- An interleaved write sequence for `c1r0`, including a shape-mismatched
write and a write to an unregistered handle. -/
def c1ws : List (Nat × List Str) :=
  [(0, [['a', 'b']]), (1, [['x'], ['y']]), (0, [['c', 'd', 'e']]),
   (2, [['z', 'z']]), (1, [['b', 'a', 'd']])]

/-- A one-layout, one-column renderer used to exercise `flush`'s reset. -/
def c6renderer : Renderer :=
  { columns := [Column.new unboundLeftCol]
  , rules := [({ start := [], «end» := [], sep := [], columns := [0] }, [[]])]
  , newline := ['\n'], begin := [], «end» := [], write_logs := [] }

/-- `c6renderer` after one accepted write. -/
def c6written : Renderer := c6renderer.write_to_layout 0 [['h', 'i']]

/-- The output text of flushing `c6written`. -/
def c6out : Str := ((c6written.flush).map Prod.fst).getD []

/-- The renderer state after flushing `c6written`. -/
def c6flushed : Renderer := ((c6written.flush).map Prod.snd).getD Renderer.new

/-- A one-layout renderer with a Middle-aligned unbounded column. -/
def c8renderer : Renderer :=
  { columns := [Column.new (ColumnLayout.align Pos.Middle ' ')]
  , rules := [({ start := [], «end» := [], sep := [], columns := [0] }, [[]])]
  , newline := ['\n'], begin := [], «end» := [], write_logs := [] }

/-- `c8renderer` after writing the rows `["a"]` and `["ab"]`. -/
def c8written : Renderer := writeAll c8renderer [(0, [['a']]), (0, [['a', 'b']])]

/-- A renderer configured with non-empty `begin`/`end` strings and one
buffered row, for the framing claim. -/
def c9renderer : Renderer :=
  { columns := [{ layout := unboundLeftCol, min := 1, max := 1 }]
  , rules := [({ start := [], «end» := [], sep := [], columns := [0] }, [[['x']]])]
  , newline := ['\n'], begin := ['B'], «end» := ['E'], write_logs := [0] }

/-- A renderer whose single layout frames rows with `<` and `>`, with
non-empty `begin`/`end` strings, after one accepted write. -/
def c9written : Renderer :=
  (({ columns := [Column.new unboundLeftCol]
    , rules := [({ start := ['<'], «end» := ['>'], sep := [], columns := [0] }, [[]])]
    , newline := ['\n'], begin := ['B'], «end» := ['E'], write_logs := [] } : Renderer)).write_to_layout 0 [['h']]

/-- The output text of flushing `c9written`. -/
def c9out : Str := ((c9written.flush).map Prod.fst).getD []

/-- The renderer state after flushing `c9written`. -/
def c9flushed : Renderer := ((c9written.flush).map Prod.snd).getD Renderer.new

/-- A renderer with one registered two-column layout, for the shape-mismatch
and unregistered-handle claims. -/
def c5renderer : Renderer :=
  { columns := [Column.new unboundLeftCol, Column.new unboundLeftCol]
  , rules := [({ start := [], «end» := [], sep := ['|'], columns := [0, 1] }, [[], []])]
  , newline := ['\n'], begin := [], «end» := [], write_logs := [] }

/-! ## Helper lemmas -/

/-- The floored subtraction the renderer writes with an `if` is `Nat`
subtraction. -/
theorem sub_floor_eq (a b : Nat) : (if a > b then a - b else 0) = a - b := by
  split <;> omega

/-- `ColumnLayout::render` succeeds and factors through `renderCore` applied
to the spec's effective bounds whenever `min ≤ max`. -/
theorem render_eq_core (c : ColumnLayout) (min max : Nat) (value : Str)
    (h : min ≤ max) :
    c.render min max value =
      some (renderCore c (effectiveLower c max) (effectiveUpper c max) value) := by
  unfold ColumnLayout.render renderCore effectiveLower effectiveUpper
  rw [if_neg (Nat.not_lt.mpr h)]
  cases hub : c.upper_bound <;> simp [hub, Option.getD, Nat.min_self]

/-- Rendered width for `Left`/`Right` alignment without truncation: the
field is exactly as wide as the larger of the adjusted lower bound and the
content. -/
theorem renderCore_length_LR (c : ColumnLayout) (alb aub : Nat) (value : Str)
    (hpos : c.pos = Pos.Left ∨ c.pos = Pos.Right) (hle : value.length ≤ aub) :
    (renderCore c alb aub value).length = Nat.max alb value.length := by
  unfold renderCore
  obtain hpos | hpos := hpos <;> rw [hpos] <;>
    simp only [if_neg (Nat.not_lt.mpr hle), List.length_append,
      List.length_replicate, List.length_take, Nat.min_self, Nat.max_def] <;>
    split <;> split <;> omega

/-! ## Claim C2 -/

/-- C2 counterexample: the claim's consequence "the rendered field is never
narrower than the widest visible width observed for that column in the
current batch" fails: a Middle-aligned unbounded column rendering `"a"`
with `min = 1`, `max = 2` emits just `"a"`, one character wide. -/
theorem c2_counterexample :
    (ColumnLayout.align Pos.Middle ' ').render 1 2 ['a'] = some ['a'] ∧
      ([('a' : Char)] : Str).length < 2 := by
  decide

/-- C2 (amended): for every render call with `min ≤ max`, the effective
upper bound used is `min(self.upper_bound, max)` when `upper_bound` is set
and `max` when it is absent, and the effective lower bound used is
`max(self.lower_bound, max)` (the render factors through `renderCore`
applied to exactly these bounds); for `Left`/`Right` alignment, whenever the
value is not truncated (its visible width is at most the effective upper
bound), the rendered field is never narrower than `max`.  (As stated, the
"never narrower" consequence fails for `Middle` alignment and for truncated
values: see the counterexample.) -/
theorem c2_effective_bounds (c : ColumnLayout) (min max : Nat) (value : Str)
    (h : min ≤ max) :
    c.render min max value =
      some (renderCore c (effectiveLower c max) (effectiveUpper c max) value) ∧
    ((c.pos = Pos.Left ∨ c.pos = Pos.Right) → value.length ≤ effectiveUpper c max →
      max ≤ (renderCore c (effectiveLower c max) (effectiveUpper c max) value).length) := by
  refine ⟨render_eq_core c min max value h, fun hpos hle => ?_⟩
  rw [renderCore_length_LR c _ _ value hpos hle]
  have h1 : max ≤ effectiveLower c max := Nat.le_max_right _ _
  have h2 : effectiveLower c max ≤ Nat.max (effectiveLower c max) value.length :=
    Nat.le_max_left _ _
  omega

/-- C2 witness: the amended claim at a concrete input, a right-aligned
column with `lower_bound = 4` rendering `"ab"` with `min = 2`, `max = 3`. -/
theorem c2_witness :
    (({ lower_bound := 4, upper_bound := none, pos := Pos.Right, pad_char := '.' } :
        ColumnLayout).render 2 3 ['a', 'b'] =
      some (renderCore { lower_bound := 4, upper_bound := none, pos := Pos.Right, pad_char := '.' }
        (effectiveLower { lower_bound := 4, upper_bound := none, pos := Pos.Right, pad_char := '.' } 3)
        (effectiveUpper { lower_bound := 4, upper_bound := none, pos := Pos.Right, pad_char := '.' } 3)
        ['a', 'b'])) ∧
    (3 ≤ (renderCore { lower_bound := 4, upper_bound := none, pos := Pos.Right, pad_char := '.' }
        (effectiveLower { lower_bound := 4, upper_bound := none, pos := Pos.Right, pad_char := '.' } 3)
        (effectiveUpper { lower_bound := 4, upper_bound := none, pos := Pos.Right, pad_char := '.' } 3)
        ['a', 'b']).length) :=
  ⟨(c2_effective_bounds _ 2 3 ['a', 'b'] (by decide)).1,
   (c2_effective_bounds _ 2 3 ['a', 'b'] (by decide)).2 (Or.inr rfl) (by decide)⟩

/-! ## Claim C3 -/

/-- C3 counterexample: with `lower_bound = 5`, `upper_bound = 2`, a
right-aligned `'-'`-padded column rendering `"abc"` with `min = max = 3`
truncates the content to `"ab"` (visible width `2`) but emits only `2` pad
characters, computed from the original width `3` (`5 - 3`), not the `3` the
claim predicts (`effective lower bound 5` minus truncated width `2`). -/
theorem c3_counterexample :
    (({ lower_bound := 5, upper_bound := some 2, pos := Pos.Right, pad_char := '-' } :
        ColumnLayout).render 3 3 ['a', 'b', 'c'] = some ['-', '-', 'a', 'b']) ∧
    List.count '-' ['-', '-', 'a', 'b'] = 2 ∧
    effectiveLower { lower_bound := 5, upper_bound := some 2, pos := Pos.Right, pad_char := '-' } 3 -
      (truncContent { lower_bound := 5, upper_bound := some 2, pos := Pos.Right, pad_char := '-' } 3
        ['a', 'b', 'c']).length = 3 ∧
    (2 : Nat) ≠ 3 := by
  decide

/-- C3 (amended): for every render call with `min ≤ max` and `Left` or
`Right` alignment, the number of pad characters emitted equals the
effective lower bound minus the visible width of the *original* value
(before truncation), floored at 0; in particular, when the value is
truncated, padding is still computed from the original value's visible
width, not from the truncated content's. -/
theorem c3_padding_from_original_width (c : ColumnLayout) (min max : Nat)
    (value : Str) (h : min ≤ max) :
    (c.pos = Pos.Left →
      c.render min max value =
        some (truncContent c max value ++
          List.replicate (padsNeeded c max value) c.pad_char)) ∧
    (c.pos = Pos.Right →
      c.render min max value =
        some (List.replicate (padsNeeded c max value) c.pad_char ++
          truncContent c max value)) := by
  rw [render_eq_core c min max value h]
  constructor <;> intro hpos <;>
    · unfold renderCore truncContent padsNeeded
      rw [hpos]
      simp [sub_floor_eq, List.take_length]

/-- C3 witness: the amended claim at the counterexample's input, where the
truncated width (2) and the original width (3) differ. -/
theorem c3_witness :
    (({ lower_bound := 5, upper_bound := some 2, pos := Pos.Right, pad_char := '-' } :
        ColumnLayout).render 3 3 ['a', 'b', 'c'] =
      some (List.replicate
          (padsNeeded { lower_bound := 5, upper_bound := some 2, pos := Pos.Right, pad_char := '-' } 3
            ['a', 'b', 'c']) '-' ++
        truncContent { lower_bound := 5, upper_bound := some 2, pos := Pos.Right, pad_char := '-' } 3
          ['a', 'b', 'c'])) :=
  (c3_padding_from_original_width _ 3 3 ['a', 'b', 'c'] (by decide)).2 rfl

/-! ## Claim C4 -/

/-- C4 (confirmed): for every render call with `min ≤ max` and Middle
alignment, the output is exactly `pads_needed / 2` pad characters, the
(possibly truncated) content, `pads_needed / 2` pad characters, and one
additional pad character exactly when `pads_needed / 2` is odd. -/
theorem c4_middle_split (c : ColumnLayout) (min max : Nat) (value : Str)
    (h : min ≤ max) (hpos : c.pos = Pos.Middle) :
    c.render min max value =
      some (List.replicate (padsNeeded c max value / 2) c.pad_char ++
        truncContent c max value ++
        List.replicate (padsNeeded c max value / 2) c.pad_char ++
        (if padsNeeded c max value / 2 % 2 = 1 then [c.pad_char] else [])) := by
  rw [render_eq_core c min max value h]
  unfold renderCore truncContent padsNeeded
  rw [hpos]
  simp [sub_floor_eq, List.take_length]

/-- C4 witness: a Middle-aligned column with `lower_bound = 7` rendering
`"a"` needs `6` pads; `6 / 2 = 3` is odd, so one extra `'*'` lands after
the trailing pad group, producing `"***a****"`. -/
theorem c4_witness :
    (({ lower_bound := 7, upper_bound := none, pos := Pos.Middle, pad_char := '*' } :
        ColumnLayout).render 1 1 ['a'] =
      some ['*', '*', '*', 'a', '*', '*', '*', '*']) :=
  (c4_middle_split
    { lower_bound := 7, upper_bound := none, pos := Pos.Middle, pad_char := '*' }
    1 1 ['a'] (by decide) rfl).trans (by decide)

/-! ## Claim C5 -/

/-- C5 (confirmed): a write to a registered layout whose value count differs
from that layout's column count is a silent no-op: the returned renderer is
the very same state (no queue, no extremum, no write-log entry changes, and
no error is reported — `write_to_layout` is total). -/
theorem c5_shape_mismatch_noop (r : Renderer) (layout : Nat) (data : List Str)
    (d : RowLayout) (cols_dat : List (List Str))
    (hrule : r.rules[layout]? = some (d, cols_dat))
    (hmismatch : d.columns.length ≠ data.length) :
    r.write_to_layout layout data = r := by
  unfold Renderer.write_to_layout
  rw [hrule]
  exact if_neg fun hc => hmismatch hc.1

/-- C5 witness: writing one value to the registered two-column layout of
`c5renderer` leaves the renderer untouched. -/
theorem c5_witness : c5renderer.write_to_layout 0 [['a']] = c5renderer :=
  c5_shape_mismatch_noop c5renderer 0 [['a']]
    { start := [], «end» := [], sep := ['|'], columns := [0, 1] } [[], []]
    (by decide) (by decide)

/-! ## Claim C10 -/

/-- C10 (confirmed): a write through a handle never returned by
`register_layout` (any index at or beyond the number of registered layouts)
is a silent no-op: the renderer state is unchanged, no error is reported,
and a subsequent flush returns exactly what it would have without the
call. -/
theorem c10_unregistered_handle_noop (r : Renderer) (layout : Nat)
    (data : List Str) (h : r.rules.length ≤ layout) :
    r.write_to_layout layout data = r ∧
      (r.write_to_layout layout data).flush = r.flush := by
  have hnone : r.rules[layout]? = none := List.getElem?_eq_none h
  have heq : r.write_to_layout layout data = r := by
    unfold Renderer.write_to_layout
    rw [hnone]
  exact ⟨heq, by rw [heq]⟩

/-- C10 witness: writing to handle `7` of the one-layout `c5renderer` leaves
the state and the subsequent flush output unchanged. -/
theorem c10_witness :
    c5renderer.write_to_layout 7 [['a'], ['b']] = c5renderer ∧
      (c5renderer.write_to_layout 7 [['a'], ['b']]).flush = c5renderer.flush :=
  c10_unregistered_handle_noop c5renderer 7 [['a'], ['b']] (by decide)

/-! ## Claim C7 -/

/-- C7 (confirmed): the spec's literal scenario.  On the two-column
unbounded left-aligned layout with separator `", "`, start `"["` and end
`"]"`: writing `["sheep","bmw"]` and flushing yields `"[sheep, bmw]"`;
writing `["sheep","bmw"]` then `["longword","x"]` before a single flush
yields `"[sheep   , bmw]\n[longword, x  ]"`. -/
theorem c7_literal_scenario :
    (((c7renderer.write_to_layout 0 ["sheep".data, "bmw".data]).flush).map Prod.fst =
      some "[sheep, bmw]".data) ∧
    (((writeAll c7renderer
          [(0, ["sheep".data, "bmw".data]), (0, ["longword".data, "x".data])]).flush).map
        Prod.fst =
      some "[sheep   , bmw]\n[longword, x  ]".data) := by
  constructor <;> rfl

/-! ## Claim C8 -/

/-- Shape of `renderCore` for a `Left`-aligned column. -/
theorem renderCore_left (c : ColumnLayout) (alb aub : Nat) (value : Str)
    (hpos : c.pos = Pos.Left) :
    renderCore c alb aub value =
      (if value.length > aub then value.take aub else value) ++
        List.replicate (alb - value.length) c.pad_char := by
  unfold renderCore
  rw [hpos]
  simp only [sub_floor_eq, List.take_length]

/-- Shape of `renderCore` for a `Right`-aligned column. -/
theorem renderCore_right (c : ColumnLayout) (alb aub : Nat) (value : Str)
    (hpos : c.pos = Pos.Right) :
    renderCore c alb aub value =
      List.replicate (alb - value.length) c.pad_char ++
        (if value.length > aub then value.take aub else value) := by
  unfold renderCore
  rw [hpos]
  simp only [sub_floor_eq, List.take_length]

/-- Shape of `renderCore` for a `Middle`-aligned column. -/
theorem renderCore_middle (c : ColumnLayout) (alb aub : Nat) (value : Str)
    (hpos : c.pos = Pos.Middle) :
    renderCore c alb aub value =
      List.replicate ((alb - value.length) / 2) c.pad_char ++
        (if value.length > aub then value.take aub else value) ++
        List.replicate ((alb - value.length) / 2) c.pad_char ++
        (if (alb - value.length) / 2 % 2 = 1 then [c.pad_char] else []) := by
  unfold renderCore
  rw [hpos]
  simp only [sub_floor_eq, List.take_length]

/-- C8 counterexample: the claim's equality "the rendered width of every
value in that column equals the maximum visible width observed for that
column in the batch" fails for a Middle-aligned unbounded column: writing
`["a"]` then `["ab"]` and flushing renders the first row as just `"a"`
(width 1), not width 2, because the single needed pad halves to zero. -/
theorem c8_counterexample :
    ((c8written.flush).map Prod.fst = some ['a', '\n', 'a', 'b']) ∧
    ((flushRowsSpec c8written.columns c8written.write_logs c8written.rules).map
        Prod.fst = some [['a'], ['a', 'b']]) ∧
    (c8written.columns[0]? =
      some { layout := ColumnLayout.align Pos.Middle ' ', min := 1, max := 2 }) ∧
    ([('a' : Char)] : Str).length ≠ 2 := by
  refine ⟨rfl, rfl, rfl, by decide⟩

/-- C8 (amended): for a column cell whose layout has no upper bound, a value
whose visible width is at most the observed batch maximum (`col.max`, which
holds for every value observed in the batch) is never truncated — the full
value appears contiguously in the rendered field — and for `Left`/`Right`
alignment the rendered width equals `max(lower_bound, col.max)`, hence
equals the batch maximum whenever the configured `lower_bound` does not
exceed it.  (The claim's unconditional width equality fails for `Middle`
alignment and for `lower_bound` above the batch maximum: see the
counterexample.) -/
theorem c8_no_upper_bound (col : Column) (value : Str)
    (hminmax : col.min ≤ col.max) (hlen : value.length ≤ col.max)
    (hub : col.layout.upper_bound = none) :
    ∃ pre post : Str, col.render value = some (pre ++ value ++ post) ∧
      ((col.layout.pos = Pos.Left ∨ col.layout.pos = Pos.Right) →
        (pre ++ value ++ post).length = Nat.max col.layout.lower_bound col.max) := by
  have hupper : effectiveUpper col.layout col.max = col.max := by
    unfold effectiveUpper
    rw [hub]
    exact Nat.min_self _
  have hmaxle : col.max ≤ effectiveLower col.layout col.max := Nat.le_max_right _ _
  have hcore := render_eq_core col.layout col.min col.max value hminmax
  have hnotrunc : ¬ value.length > col.max := Nat.not_lt.mpr hlen
  unfold Column.render
  rw [hcore]
  cases hpos : col.layout.pos with
  | Left =>
    rw [renderCore_left _ _ _ _ hpos, hupper, if_neg hnotrunc]
    refine ⟨[], List.replicate (effectiveLower col.layout col.max - value.length)
      col.layout.pad_char, rfl, fun _ => ?_⟩
    simp only [List.nil_append, List.length_append, List.length_replicate]
    unfold effectiveLower at hmaxle ⊢
    omega
  | Right =>
    rw [renderCore_right _ _ _ _ hpos, hupper, if_neg hnotrunc]
    refine ⟨List.replicate (effectiveLower col.layout col.max - value.length)
      col.layout.pad_char, [], ?_, fun _ => ?_⟩
    · rw [List.append_nil]
    · simp only [List.append_nil, List.length_append, List.length_replicate]
      unfold effectiveLower at hmaxle ⊢
      omega
  | Middle =>
    rw [renderCore_middle _ _ _ _ hpos, hupper, if_neg hnotrunc]
    refine ⟨List.replicate ((effectiveLower col.layout col.max - value.length) / 2)
        col.layout.pad_char,
      List.replicate ((effectiveLower col.layout col.max - value.length) / 2)
          col.layout.pad_char ++
        (if (effectiveLower col.layout col.max - value.length) / 2 % 2 = 1
          then [col.layout.pad_char] else []), ?_, fun hLR => ?_⟩
    · simp only [List.append_assoc]
    · obtain hL | hR := hLR <;> simp_all

/-- C8 witness: the amended claim at a concrete input, a left-aligned
unbounded column cell with observed extrema `min = 1`, `max = 3` rendering
`"ab"`. -/
theorem c8_witness :
    ∃ pre post : Str,
      ({ layout := ColumnLayout.align Pos.Left ' ', min := 1, max := 3 } : Column).render
          ['a', 'b'] = some (pre ++ ['a', 'b'] ++ post) ∧
      (({ layout := ColumnLayout.align Pos.Left ' ', min := 1, max := 3 } : Column).layout.pos =
            Pos.Left ∨
          ({ layout := ColumnLayout.align Pos.Left ' ', min := 1, max := 3 } : Column).layout.pos =
            Pos.Right →
        (pre ++ ['a', 'b'] ++ post).length =
          Nat.max ({ layout := ColumnLayout.align Pos.Left ' ', min := 1, max := 3 } :
            Column).layout.lower_bound 3) :=
  c8_no_upper_bound { layout := ColumnLayout.align Pos.Left ' ', min := 1, max := 3 }
    ['a', 'b'] (by decide) (by decide) rfl

/-! ## Claim C6 -/

/-- `modifyCol` preserves the store's length. -/
theorem modifyCol_length (store : List Column) (i : Nat) (f : Column → Column) :
    (modifyCol store i f).length = store.length := by
  unfold modifyCol
  cases h : store[i]? <;> simp

/-- Any fold of `modifyCol` steps preserves the store's length. -/
theorem foldl_modifyCol_length {β : Type _} (idx : β → Nat) (g : β → Column → Column) :
    ∀ (l : List β) (store : List Column),
      (l.foldl (fun s b => modifyCol s (idx b) (g b)) store).length = store.length := by
  intro l
  induction l with
  | nil => intro store; rfl
  | cons b t ih => intro store; rw [List.foldl_cons, ih, modifyCol_length]

/-- `RowLayout::reset` preserves the store's length. -/
theorem reset_length (row : RowLayout) (store : List Column) :
    (row.reset store).length = store.length :=
  foldl_modifyCol_length (fun ci => ci)
    (fun _ col => { col with min := usizeMax, max := 0 }) row.columns store

/-- A reset step keeps an already-reset cell reset. -/
theorem colReset_modifyCol_reset (store : List Column) (i ci : Nat)
    (h : colReset store ci) :
    colReset (modifyCol store i (fun col => { col with min := usizeMax, max := 0 })) ci := by
  obtain ⟨col, hget, hmin, hmax⟩ := h
  unfold modifyCol
  cases hi : store[i]? with
  | none => exact ⟨col, hget, hmin, hmax⟩
  | some c =>
    by_cases hic : i = ci
    · subst hic
      exact ⟨_, List.getElem?_set_eq_of_lt _ (List.getElem?_eq_some.mp hi).1, rfl, rfl⟩
    · exact ⟨col, by rw [List.getElem?_set_ne hic]; exact hget, hmin, hmax⟩

/-- A reset step at a valid index leaves that cell reset. -/
theorem colReset_modifyCol_self (store : List Column) (i : Nat)
    (hlt : i < store.length) :
    colReset (modifyCol store i (fun col => { col with min := usizeMax, max := 0 })) i := by
  unfold modifyCol
  rw [List.getElem?_eq_getElem hlt]
  exact ⟨_, List.getElem?_set_eq_of_lt _ hlt, rfl, rfl⟩

/-- Folding reset steps keeps an already-reset cell reset. -/
theorem foldl_reset_preserves :
    ∀ (l : List Nat) (store : List Column) (ci : Nat),
      colReset store ci →
      colReset (l.foldl
        (fun s i => modifyCol s i (fun col => { col with min := usizeMax, max := 0 }))
        store) ci := by
  intro l
  induction l with
  | nil => exact fun _ _ h => h
  | cons a t ih =>
    intro store ci h
    rw [List.foldl_cons]
    exact ih _ _ (colReset_modifyCol_reset _ _ _ h)

/-- Folding reset steps over a list containing a valid index resets that
cell. -/
theorem foldl_reset_establishes :
    ∀ (l : List Nat) (store : List Column) (ci : Nat),
      ci ∈ l → ci < store.length →
      colReset (l.foldl
        (fun s i => modifyCol s i (fun col => { col with min := usizeMax, max := 0 }))
        store) ci := by
  intro l
  induction l with
  | nil => intro _ _ h; cases h
  | cons a t ih =>
    intro store ci hmem hlt
    rw [List.foldl_cons]
    rcases List.mem_cons.mp hmem with rfl | hmem'
    · exact foldl_reset_preserves t _ ci (colReset_modifyCol_self store ci hlt)
    · exact ih _ ci hmem' (by rw [modifyCol_length]; exact hlt)

/-- `RowLayout::reset` resets every cell the row references. -/
theorem reset_establishes (row : RowLayout) (store : List Column) (ci : Nat)
    (hmem : ci ∈ row.columns) (hlt : ci < store.length) :
    colReset (row.reset store) ci :=
  foldl_reset_establishes row.columns store ci hmem hlt

/-- `RowLayout::reset` keeps an already-reset cell reset. -/
theorem reset_preserves (row : RowLayout) (store : List Column) (ci : Nat)
    (h : colReset store ci) : colReset (row.reset store) ci :=
  foldl_reset_preserves row.columns store ci h

/-- The reset pass at the end of `flush` preserves the store's length. -/
theorem rulesfold_reset_length :
    ∀ (rls : List (RowLayout × List (List Str))) (store : List Column),
      (rls.foldl (fun s rule => rule.1.reset s) store).length = store.length := by
  intro rls
  induction rls with
  | nil => intro store; rfl
  | cons a t ih => intro store; rw [List.foldl_cons, ih, reset_length]

/-- The reset pass keeps an already-reset cell reset. -/
theorem rulesfold_reset_preserves :
    ∀ (rls : List (RowLayout × List (List Str))) (store : List Column) (ci : Nat),
      colReset store ci →
      colReset (rls.foldl (fun s rule => rule.1.reset s) store) ci := by
  intro rls
  induction rls with
  | nil => exact fun _ _ h => h
  | cons a t ih =>
    intro store ci h
    rw [List.foldl_cons]
    exact ih _ _ (reset_preserves _ _ _ h)

/-- The reset pass resets every valid cell referenced by any processed
layout. -/
theorem rulesfold_reset_establishes :
    ∀ (rls : List (RowLayout × List (List Str))) (store : List Column)
      (rule : RowLayout × List (List Str)) (ci : Nat),
      rule ∈ rls → ci ∈ rule.1.columns → ci < store.length →
      colReset (rls.foldl (fun s rl => rl.1.reset s) store) ci := by
  intro rls
  induction rls with
  | nil => intro _ _ _ h; cases h
  | cons a t ih =>
    intro store rule ci hmem hci hlt
    rw [List.foldl_cons]
    rcases List.mem_cons.mp hmem with rfl | hmem'
    · exact rulesfold_reset_preserves t _ ci (reset_establishes _ _ _ hci hlt)
    · exact ih _ rule ci hmem' hci (by rw [reset_length]; exact hlt)

/-- Setting an entry to the value it already holds is the identity. -/
theorem set_same {α : Type _} (l : List α) {i : Nat} {a : α}
    (h : l[i]? = some a) : l.set i a = l := by
  apply List.ext_getElem?
  intro n
  by_cases hn : i = n
  · subst hn
    rw [List.getElem?_set_eq_of_lt _ (List.getElem?_eq_some.mp h).1]
    exact h.symm
  · rw [List.getElem?_set_ne hn]

/-- The flush loop only drains queues: the layouts of the rules are
unchanged. -/
theorem flushLoop_map_fst (newline : Str) (store : List Column) :
    ∀ (logs : List Nat) (rules : List (RowLayout × List (List Str))) (nf : Bool)
      (out : Str) (rules' : List (RowLayout × List (List Str))),
      flushLoop newline store logs rules nf = some (out, rules') →
      rules'.map Prod.fst = rules.map Prod.fst := by
  intro logs
  induction logs with
  | nil =>
    intro rules nf out rules' h
    simp only [flushLoop, Option.some.injEq, Prod.mk.injEq] at h
    rw [← h.2]
  | cons i rest ih =>
    intro rules nf out rules' h
    simp only [flushLoop] at h
    split at h
    · cases h
    · rename_i d cols_dat hr
      split at h
      · cases h
      · rename_i rowBody cols_dat' hfc
        split at h
        · cases h
        · rename_i tl rules₁ hfl
          simp only [Option.some.injEq, Prod.mk.injEq] at h
          have hmap : (List.map Prod.fst rules)[i]? = some d := by
            rw [List.getElem?_map, hr]
            rfl
          rw [← h.2, ih _ _ _ _ hfl, List.map_set]
          exact set_same _ hmap

/-- C6 (confirmed): immediately after a completed flush, every column cell
reachable from any registered layout is back to the unset extrema
(`min = usize::MAX`, `max = 0`), whether or not it received writes in the
flushed cycle (the hypothesis only asks that the referenced cells exist in
the store, which holds for every renderer the engine builds). -/
theorem c6_reset_after_flush (r : Renderer) (out : Str) (r' : Renderer)
    (hvalid : ∀ rule ∈ r.rules, ∀ ci ∈ rule.1.columns, ci < r.columns.length)
    (hflush : r.flush = some (out, r')) :
    ∀ rule ∈ r'.rules, ∀ ci ∈ rule.1.columns, colReset r'.columns ci := by
  unfold Renderer.flush at hflush
  split at hflush
  · cases hflush
  · rename_i buf rules' hloop
    simp only [Option.some.injEq, Prod.mk.injEq] at hflush
    obtain ⟨houtbuf, hr'⟩ := hflush
    subst hr'
    intro rule hrule ci hci
    have hfst := flushLoop_map_fst r.newline r.columns r.write_logs r.rules false
      buf rules' hloop
    have hmem : rule.1 ∈ List.map Prod.fst r.rules := by
      rw [← hfst]
      exact List.mem_map_of_mem _ hrule
    obtain ⟨rule₀, hrule₀, hfst₀⟩ := List.mem_map.mp hmem
    have hci0 : ci ∈ rule₀.1.columns := by rw [hfst₀]; exact hci
    have hlt : ci < r.columns.length := hvalid rule₀ hrule₀ ci hci0
    exact rulesfold_reset_establishes rules' r.columns rule ci hrule hci hlt

/-- C6 witness: after flushing the written one-column renderer, its single
column cell is back to the unset extrema. -/
theorem c6_witness : colReset c6flushed.columns 0 :=
  c6_reset_after_flush c6written c6out c6flushed (by decide) (by decide)
    ({ start := [], «end» := [], sep := [], columns := [0] }, ([[]] : List (List Str)))
    (by decide) 0 (by decide)

/-! ## Claim C9 -/

/-- The text the flush loop emits for a non-empty log ends with the end
token of the layout targeted by the last log entry. -/
theorem flushLoop_last_end (newline : Str) (store : List Column) :
    ∀ (logs : List Nat) (rules : List (RowLayout × List (List Str))) (nf : Bool)
      (out : Str) (rules' : List (RowLayout × List (List Str))),
      flushLoop newline store logs rules nf = some (out, rules') →
      ∀ j, logs.getLast? = some j →
      ∀ d qs, rules[j]? = some (d, qs) →
      ∃ u, out = u ++ d.«end» := by
  intro logs
  induction logs with
  | nil =>
    intro rules nf out rules' h j hj
    simp at hj
  | cons i rest ih =>
    intro rules nf out rules' h j hj d qs hrule
    simp only [flushLoop] at h
    split at h
    · cases h
    · rename_i d₀ qs₀ hr
      split at h
      · cases h
      · rename_i rowBody qs' hfc
        split at h
        · cases h
        · rename_i tl rules₁ hfl
          simp only [Option.some.injEq, Prod.mk.injEq] at h
          obtain ⟨hout, hrules⟩ := h
          cases rest with
          | nil =>
            have hj' : j = i := by simpa using hj.symm
            subst hj'
            rw [hrule] at hr
            obtain ⟨hd, hqs⟩ := Prod.mk.injEq .. ▸ Option.some.inj hr
            simp only [flushLoop, Option.some.injEq, Prod.mk.injEq] at hfl
            refine ⟨(if nf = true then newline else []) ++ d₀.start ++ rowBody, ?_⟩
            rw [← hout, ← hfl.1, ← hd]
            simp [List.append_assoc]
          | cons r2 rest2 =>
            have hj2 : (r2 :: rest2).getLast? = some j := by
              rw [← List.getLast?_cons_cons]
              exact hj
            have hrule₁ : (rules.set i (d₀, qs'))[j]? = some (d, if i = j then qs' else qs) := by
              by_cases hij : i = j
              · subst hij
                rw [hrule] at hr
                obtain ⟨hd, _⟩ := Prod.mk.injEq .. ▸ Option.some.inj hr
                rw [if_pos rfl, List.getElem?_set_eq_of_lt _ (List.getElem?_eq_some.mp hrule).1,
                  ← hd]
              · rw [if_neg hij, List.getElem?_set_ne hij]
                exact hrule
            obtain ⟨u, hu⟩ := ih _ _ _ _ hfl j hj2 d _ hrule₁
            refine ⟨(if nf = true then newline else []) ++ d₀.start ++ rowBody ++ d₀.«end» ++ u, ?_⟩
            rw [← hout, hu]
            simp [List.append_assoc]

/-- C9 counterexample: the configured `begin`/`end` strings do not frame
the flushed block.  A renderer with `begin = "B"`, `end = "E"` and one
buffered row flushes to `"x"`, which neither starts with `"B"` nor ends
with `"E"`. -/
theorem c9_counterexample :
    ((c9renderer.flush).map Prod.fst = some ['x']) ∧
      c9renderer.begin = ['B'] ∧ c9renderer.«end» = ['E'] ∧
      (['x'] : Str) ≠ ['B'] ++ ['x'].drop 1 ∧
      (['x'] : Str) ≠ ['x'].take 0 ++ ['E'] := by
  refine ⟨rfl, rfl, rfl, by decide, by decide⟩

/-- C9 (amended): the `begin` and `end` strings stored on the `Renderer`
are never emitted — the flushed text is the same whatever they are set to —
and row framing comes from the layouts instead: a flush of at least one
buffered row starts with the first row's layout's start token and ends with
the last row's layout's end token. -/
theorem c9_row_framing (r : Renderer) :
    (∀ b e : Str,
      ((({ r with begin := b, «end» := e } : Renderer)).flush).map Prod.fst =
        (r.flush).map Prod.fst) ∧
    (∀ i rest d qs out r', r.write_logs = i :: rest → r.rules[i]? = some (d, qs) →
      r.flush = some (out, r') → ∃ t, out = d.start ++ t) ∧
    (∀ j d qs out r', r.write_logs.getLast? = some j → r.rules[j]? = some (d, qs) →
      r.flush = some (out, r') → ∃ u, out = u ++ d.«end») := by
  refine ⟨fun b e => ?_, fun i rest d qs out r' hlog hrule hflush => ?_,
    fun j d qs out r' hlast hrule hflush => ?_⟩
  · unfold Renderer.flush
    cases h : flushLoop r.newline r.columns r.write_logs r.rules false <;> simp [h]
  · unfold Renderer.flush at hflush
    split at hflush
    · cases hflush
    · rename_i buf rules' hloop
      simp only [Option.some.injEq, Prod.mk.injEq] at hflush
      obtain ⟨hbuf, _⟩ := hflush
      rw [hlog] at hloop
      simp only [flushLoop] at hloop
      split at hloop
      · cases hloop
      · rename_i d₀ qs₀ hr
        rw [hrule] at hr
        have hd : d = d₀ ∧ qs = qs₀ := by simpa using hr
        split at hloop
        · cases hloop
        · rename_i rowBody qs' hfc
          split at hloop
          · cases hloop
          · rename_i tl rules₁ hfl
            simp only [Option.some.injEq, Prod.mk.injEq] at hloop
            refine ⟨rowBody ++ d₀.«end» ++ tl, ?_⟩
            rw [← hbuf, ← hloop.1, hd.1]
            simp [List.append_assoc]
  · unfold Renderer.flush at hflush
    split at hflush
    · cases hflush
    · rename_i buf rules' hloop
      simp only [Option.some.injEq, Prod.mk.injEq] at hflush
      obtain ⟨hbuf, _⟩ := hflush
      obtain ⟨u, hu⟩ := flushLoop_last_end r.newline r.columns r.write_logs r.rules
        false buf rules' hloop j hlast d qs hrule
      exact ⟨u, by rw [← hbuf, hu]⟩

/-- C9 witness: on the concrete written renderer, flushing is insensitive
to the configured `begin`/`end` strings, and the output `"<h>"` is framed
by the layout's own `<`/`>` tokens. -/
theorem c9_witness :
    (((({ c9written with begin := ['Q'], «end» := ['R'] } : Renderer)).flush).map
        Prod.fst = (c9written.flush).map Prod.fst) ∧
    (∃ t, c9out = ['<'] ++ t) ∧ (∃ u, c9out = u ++ ['>']) :=
  ⟨(c9_row_framing c9written).1 ['Q'] ['R'],
   (c9_row_framing c9written).2.1 0 [] ⟨['<'], ['>'], [], [0]⟩ [[['h']]] c9out
     c9flushed (by decide) (by decide) (by decide),
   (c9_row_framing c9written).2.2 0 ⟨['<'], ['>'], [], [0]⟩ [[['h']]] c9out
     c9flushed (by decide) (by decide) (by decide)⟩

/-! ## Claim C1 -/

/-- `ColumnLayout::render` cannot abort when `min ≤ max`. -/
theorem render_isSome (c : ColumnLayout) {min max : Nat} (h : min ≤ max)
    (v : Str) : ∃ s, c.render min max v = some s := by
  unfold ColumnLayout.render
  rw [if_neg (Nat.not_lt.mpr h)]
  exact ⟨_, rfl⟩

/-- Unfolding of `colObserved`. -/
theorem colObserved_spec (store : List Column) (ci : Nat)
    (h : colObserved store ci = true) :
    ∃ col, store[ci]? = some col ∧ col.min ≤ col.max := by
  unfold colObserved at h
  split at h
  · cases h
  · rename_i col hcol
    exact ⟨col, hcol, by simpa using h⟩

/-- The per-row loop of flush succeeds when each queue is non-empty and
each referenced cell exists with observed extrema; it pops exactly the
front of every queue. -/
theorem flushCols_ok (store : List Column) (sep : Str) :
    ∀ (qs : List (List Str)) (cis : List Nat) (once : Bool),
      qs.length = cis.length →
      (∀ q ∈ qs, q ≠ []) →
      (∀ ci ∈ cis, colObserved store ci = true) →
      ∃ out, flushCols store sep qs cis once = some (out, qs.map List.tail) := by
  intro qs
  induction qs with
  | nil =>
    intro cis once hlen _ _
    cases cis with
    | nil => exact ⟨[], rfl⟩
    | cons c cs => simp at hlen
  | cons q qt ih =>
    intro cis once hlen hne hobs
    cases cis with
    | nil => simp at hlen
    | cons ci cit =>
      obtain ⟨col, hcol, hminmax⟩ :=
        colObserved_spec store ci (hobs ci (List.mem_cons_self _ _))
      cases hq : q with
      | nil => exact absurd hq (hne q (List.mem_cons_self _ _))
      | cons v qrest =>
        obtain ⟨cellv, hcr⟩ : ∃ s, col.render v = some s :=
          render_isSome col.layout hminmax v
        obtain ⟨out, hout⟩ := ih cit true (by simpa using hlen)
          (fun q' hq' => hne q' (List.mem_cons_of_mem _ hq'))
          (fun ci' hci' => hobs ci' (List.mem_cons_of_mem _ hci'))
        subst hq
        refine ⟨(if once then sep else []) ++ cellv ++ out, ?_⟩
        simp only [flushCols, hcol, hcr, hout, List.map_cons, List.tail_cons]

/-- Under the bookkeeping invariant, the specification-side flush loop
succeeds and produces one rendered row per write-log entry. -/
theorem flushRowsSpec_ok (store : List Column) :
    ∀ (logs : List Nat) (rules : List (RowLayout × List (List Str))),
      InvP logs rules store →
      ∃ rows rules', flushRowsSpec store logs rules = some (rows, rules') ∧
        rows.length = logs.length := by
  intro logs
  induction logs with
  | nil => intro rules _; exact ⟨[], rules, rfl, rfl⟩
  | cons i rest ih =>
    intro rules hinv
    obtain ⟨hlog, hidx⟩ := hinv
    have hi : i < rules.length := hlog i (List.mem_cons_self _ _)
    obtain ⟨hlen, hq, hci, hobs⟩ := hidx i hi
    have hcount : 0 < (i :: rest).count i := by
      rw [List.count_cons_self]
      omega
    have hne : ∀ q ∈ rules[i].2, q ≠ [] := by
      intro q hq' h0
      have hql := hq q hq'
      rw [h0] at hql
      simp [List.count_cons_self] at hql
    obtain ⟨body, hbody⟩ := flushCols_ok store (rules[i].1.sep) (rules[i].2)
      (rules[i].1.columns) false hlen hne (hobs hcount)
    have hinv₁ : InvP rest (rules.set i (rules[i].1, (rules[i].2).map List.tail)) store := by
      constructor
      · intro j hj
        rw [List.length_set]
        exact hlog j (List.mem_cons_of_mem _ hj)
      · intro j hjlt
        rw [List.length_set] at hjlt
        by_cases hij : i = j
        · subst hij
          rw [List.getElem_set_self]
          refine ⟨by rw [List.length_map, hlen], ?_, hci, fun _ => hobs hcount⟩
          intro q' hq'
          obtain ⟨q, hqmem, hqt⟩ := List.mem_map.mp hq'
          have hql := hq q hqmem
          have hqlen : q.length = rest.count i + 1 := by
            rw [hql, List.count_cons_self]
          rw [← hqt, List.length_tail, hqlen]
          omega
        · rw [List.getElem_set_ne hij]
          obtain ⟨h1, h2, h3, h4⟩ := hidx j hjlt
          have hcnt : (i :: rest).count j = rest.count j :=
            List.count_cons_of_ne (fun hji => hij hji.symm) rest
          exact ⟨h1, fun q hq' => by rw [h2 q hq', hcnt], h3,
            fun hpos => h4 (by rw [hcnt]; exact hpos)⟩
    obtain ⟨rows, rules', hspec, hrows⟩ := ih _ hinv₁
    have hri : rules[i]? = some (rules[i].1, rules[i].2) := by
      rw [List.getElem?_eq_getElem hi]
    refine ⟨(rules[i].1.start ++ body ++ rules[i].1.«end») :: rows, rules', ?_, by
      simp [hrows]⟩
    simp only [flushRowsSpec, hri, hbody, hspec]

/-- With the `not_first_line` flag clear, `joinPre` is plain `joinRows`. -/
theorem joinPre_false (nl : Str) (rows : List Str) :
    joinPre false nl rows = joinRows nl rows := by
  cases rows <;> rfl

/-- The buffer-threading flush loop is the specification-side loop followed
by joining the rows with the configured newline. -/
theorem flushLoop_eq_join (nl : Str) (store : List Column) :
    ∀ (logs : List Nat) (rules : List (RowLayout × List (List Str))) (nf : Bool),
      flushLoop nl store logs rules nf =
        (flushRowsSpec store logs rules).map (fun p => (joinPre nf nl p.1, p.2)) := by
  intro logs
  induction logs with
  | nil => intro rules nf; cases nf <;> rfl
  | cons i rest ih =>
    intro rules nf
    cases hr : rules[i]? with
    | none => simp only [flushLoop, flushRowsSpec, hr]; rfl
    | some rule =>
      obtain ⟨d, qs⟩ := rule
      simp only [flushLoop, flushRowsSpec, hr]
      cases hfc : flushCols store d.sep qs d.columns false with
      | none => rfl
      | some p =>
        obtain ⟨body, qs'⟩ := p
        dsimp only
        rw [ih (rules.set i (d, qs')) true]
        cases hspec : flushRowsSpec store rest (rules.set i (d, qs')) with
        | none => rfl
        | some q =>
          obtain ⟨rows, rules'⟩ := q
          simp only [Option.map]
          cases rows with
          | nil => cases nf <;> simp [joinPre, joinRows]
          | cons r rs => cases nf <;> simp [joinPre, joinRows, List.append_assoc]

/-- A `modifyCol` step whose update leaves the extrema observed keeps a cell
observed. -/
theorem colObserved_modifyCol_preserve (store : List Column) (j ci : Nat)
    (f : Column → Column) (hf : ∀ col, (f col).min ≤ (f col).max)
    (h : colObserved store ci = true) :
    colObserved (modifyCol store j f) ci = true := by
  obtain ⟨col, hcol, hmm⟩ := colObserved_spec store ci h
  unfold modifyCol
  cases hj : store[j]? with
  | none => exact h
  | some c =>
    unfold colObserved
    by_cases hjc : j = ci
    · subst hjc
      rw [List.getElem?_set_eq_of_lt _ (List.getElem?_eq_some.mp hj).1]
      simpa using hf c
    · rw [List.getElem?_set_ne hjc, hcol]
      simpa using hmm

/-- A `modifyCol` step at a valid index whose update leaves the extrema
observed makes that cell observed. -/
theorem colObserved_modifyCol_self (store : List Column) (ci : Nat)
    (f : Column → Column) (hf : ∀ col, (f col).min ≤ (f col).max)
    (hlt : ci < store.length) :
    colObserved (modifyCol store ci f) ci = true := by
  unfold modifyCol
  rw [List.getElem?_eq_getElem hlt]
  unfold colObserved
  rw [List.getElem?_set_eq_of_lt _ (by simpa using hlt)]
  simpa using hf store[ci]

/-- The observation pass of `write_to_layout` always produces observed
extrema. -/
theorem observe_min_le_max (w : Nat) (col : Column) :
    ({ col with min := Nat.min col.min w, max := Nat.max col.max w } : Column).min ≤
      ({ col with min := Nat.min col.min w, max := Nat.max col.max w } : Column).max :=
  Nat.le_trans (Nat.min_le_right _ _) (Nat.le_max_right _ _)

/-- The observation fold of `write_to_layout` preserves the store length. -/
theorem observeFold_length (l : List (Nat × Str)) (store : List Column) :
    (l.foldl (fun s p => modifyCol s p.1 (fun col =>
      { col with min := Nat.min col.min p.2.length
               , max := Nat.max col.max p.2.length })) store).length = store.length :=
  foldl_modifyCol_length (fun p => p.1)
    (fun p col =>
      { col with min := Nat.min col.min p.2.length
               , max := Nat.max col.max p.2.length }) l store

/-- The observation fold keeps observed cells observed. -/
theorem observeFold_preserves :
    ∀ (l : List (Nat × Str)) (store : List Column) (ci : Nat),
      colObserved store ci = true →
      colObserved (l.foldl (fun s p => modifyCol s p.1 (fun col =>
        { col with min := Nat.min col.min p.2.length
                 , max := Nat.max col.max p.2.length })) store) ci = true := by
  intro l
  induction l with
  | nil => exact fun _ _ h => h
  | cons a t ih =>
    intro store ci h
    rw [List.foldl_cons]
    exact ih _ _ (colObserved_modifyCol_preserve _ _ _ _
      (fun col => observe_min_le_max a.2.length col) h)

/-- After the observation fold, every valid cell it touches is observed. -/
theorem observeFold_covers :
    ∀ (l : List (Nat × Str)) (store : List Column) (ci : Nat),
      ci ∈ l.map Prod.fst → ci < store.length →
      colObserved (l.foldl (fun s p => modifyCol s p.1 (fun col =>
        { col with min := Nat.min col.min p.2.length
                 , max := Nat.max col.max p.2.length })) store) ci = true := by
  intro l
  induction l with
  | nil => intro _ _ h; cases h
  | cons a t ih =>
    intro store ci hmem hlt
    rw [List.foldl_cons]
    rw [List.map_cons, List.mem_cons] at hmem
    rcases hmem with rfl | hmem'
    · exact observeFold_preserves t _ a.1
        (colObserved_modifyCol_self _ _ _
          (fun col => observe_min_le_max a.2.length col) hlt)
    · exact ih _ ci hmem' (by rw [modifyCol_length]; exact hlt)

/-- A renderer in its initial configuration satisfies the bookkeeping
invariant. -/
theorem validInit_inv (r : Renderer) (h : ValidInit r) : RendererInv r := by
  obtain ⟨hlogs, hrules⟩ := h
  constructor
  · intro i hi
    rw [hlogs] at hi
    cases hi
  · intro i hilt
    obtain ⟨h1, h2, h3⟩ := hrules _ (List.getElem_mem hilt)
    refine ⟨h1, ?_, h3, ?_⟩
    · intro q hq
      rw [h2 q hq, hlogs]
      rfl
    · intro hpos
      rw [hlogs] at hpos
      simp [List.count_nil] at hpos

/-- `write_to_layout` preserves the bookkeeping invariant. -/
theorem write_inv (r : Renderer) (layout : Nat) (data : List Str)
    (h : RendererInv r) : RendererInv (r.write_to_layout layout data) := by
  unfold Renderer.write_to_layout
  cases hr : r.rules[layout]? with
  | none => exact h
  | some rule =>
    obtain ⟨d, cols_dat⟩ := rule
    dsimp only
    by_cases hguard : d.columns.length = data.length ∧ cols_dat.length = data.length
    · rw [if_pos hguard]
      obtain ⟨hlog, hidx⟩ := h
      obtain ⟨hlt, hrd⟩ := List.getElem?_eq_some.mp hr
      refine ⟨?_, ?_⟩
      · intro i hi
        rw [List.length_set]
        rcases List.mem_append.mp hi with hi | hi
        · exact hlog i hi
        · rw [List.mem_singleton] at hi
          subst hi
          exact hlt
      · intro i hilt
        rw [List.length_set] at hilt
        by_cases hil : layout = i
        · subst hil
          rw [List.getElem_set_self]
          obtain ⟨h1, h2, h3, _⟩ := hidx layout hlt
          rw [hrd] at h1 h2 h3
          have hcnt : (r.write_logs ++ [layout]).count layout =
              r.write_logs.count layout + 1 := by
            rw [List.count_append, List.count_singleton]
            simp
          refine ⟨?_, ?_, ?_, ?_⟩
          · rw [List.length_map, List.length_zip, hguard.2, Nat.min_self]
            exact hguard.1.symm
          · intro q' hq'
            obtain ⟨p, hp, hpe⟩ := List.mem_map.mp hq'
            obtain ⟨hp1, _⟩ := List.of_mem_zip hp
            rw [← hpe, List.length_append, h2 p.1 hp1, hcnt]
            simp
          · intro ci hci
            rw [observeFold_length]
            exact h3 ci hci
          · intro _ ci hci
            apply observeFold_covers
            · rw [List.map_fst_zip _ _ (Nat.le_of_eq hguard.1)]
              exact hci
            · exact h3 ci hci
        · rw [List.getElem_set_ne hil]
          obtain ⟨h1, h2, h3, h4⟩ := hidx i hilt
          have hcnt : (r.write_logs ++ [layout]).count i = r.write_logs.count i := by
            rw [List.count_append, List.count_singleton]
            simp [hil]
          refine ⟨h1, fun q hq => by rw [h2 q hq, hcnt], fun ci hci => by
            rw [observeFold_length]; exact h3 ci hci, fun hpos ci hci => ?_⟩
          apply observeFold_preserves
          exact h4 (by rw [hcnt] at hpos; exact hpos) ci hci
    · rw [if_neg hguard]
      exact h

/-- A sequence of writes preserves the bookkeeping invariant. -/
theorem writeAll_inv (ws : List (Nat × List Str)) :
    ∀ (r : Renderer), RendererInv r → RendererInv (writeAll r ws) := by
  induction ws with
  | nil => exact fun r h => h
  | cons w t ih =>
    intro r h
    unfold writeAll
    rw [List.foldl_cons]
    exact ih _ (write_inv r w.1 w.2 h)

/-- Unfolding equation for `acceptedLog` on a cons. -/
theorem acceptedLog_cons (counts : List Nat) (w : Nat × List Str)
    (ws : List (Nat × List Str)) :
    acceptedLog counts (w :: ws) =
      if counts[w.1]? = some w.2.length then w.1 :: acceptedLog counts ws
      else acceptedLog counts ws := rfl

/-- Under the invariant, the write log after a sequence of writes is the
old log followed by the handles of exactly the accepted writes, in call
order. -/
theorem writeAll_log (ws : List (Nat × List Str)) :
    ∀ (r : Renderer), RendererInv r →
      (writeAll r ws).write_logs =
        r.write_logs ++
          acceptedLog (r.rules.map (fun rule => rule.1.columns.length)) ws := by
  induction ws with
  | nil =>
    intro r _
    simp [writeAll, acceptedLog]
  | cons w t ih =>
    intro r hinv
    have hstep : writeAll r (w :: t) = writeAll (r.write_to_layout w.1 w.2) t := by
      unfold writeAll
      rw [List.foldl_cons]
    rw [hstep]
    cases hr : r.rules[w.1]? with
    | none =>
      have hw : r.write_to_layout w.1 w.2 = r := by
        unfold Renderer.write_to_layout
        rw [hr]
      have hacc : (r.rules.map (fun rule => rule.1.columns.length))[w.1]? = none := by
        rw [List.getElem?_map, hr]
        rfl
      rw [hw, ih r hinv, acceptedLog_cons,
        if_neg (by rw [hacc]; exact fun hc => Option.noConfusion hc)]
    | some rule =>
      obtain ⟨d, cols_dat⟩ := rule
      obtain ⟨hlt, hrd⟩ := List.getElem?_eq_some.mp hr
      have hcd : cols_dat.length = d.columns.length := by
        have h1 := ((hinv.2) w.1 hlt).1
        rw [hrd] at h1
        exact h1
      have hacc : (r.rules.map (fun rule => rule.1.columns.length))[w.1]? =
          some d.columns.length := by
        rw [List.getElem?_map, hr]
        rfl
      by_cases hmatch : d.columns.length = w.2.length
      · have hguard : d.columns.length = w.2.length ∧ cols_dat.length = w.2.length :=
          ⟨hmatch, by rw [hcd]; exact hmatch⟩
        have hw : r.write_to_layout w.1 w.2 =
            { r with
              columns := ((d.columns.zip w.2).foldl
                (fun s p => modifyCol s p.1 (fun col =>
                  { col with min := Nat.min col.min p.2.length
                           , max := Nat.max col.max p.2.length })) r.columns)
              , rules := r.rules.set w.1
                  (d, (cols_dat.zip w.2).map (fun p => p.1 ++ [p.2]))
              , write_logs := r.write_logs ++ [w.1] } := by
          unfold Renderer.write_to_layout
          rw [hr]
          dsimp only
          rw [if_pos hguard]
        have hmap : (r.rules.set w.1
              (d, (cols_dat.zip w.2).map (fun p => p.1 ++ [p.2]))).map
              (fun rule => rule.1.columns.length) =
            r.rules.map (fun rule => rule.1.columns.length) := by
          rw [List.map_set]
          exact set_same _ hacc
        rw [ih (r.write_to_layout w.1 w.2) (write_inv r w.1 w.2 hinv), hw]
        dsimp only
        rw [hmap, acceptedLog_cons, if_pos (by rw [hacc, hmatch])]
        simp
      · have hw : r.write_to_layout w.1 w.2 = r := by
          unfold Renderer.write_to_layout
          rw [hr]
          dsimp only
          rw [if_neg (fun hg => hmatch hg.1)]
        rw [hw, ih r hinv, acceptedLog_cons,
          if_neg (by rw [hacc]; exact fun hc => hmatch (Option.some.inj hc))]

/-- C1 (confirmed): starting from any validly-initialized renderer, after
any sequence of write calls (across any number of registered layouts,
mismatched and invalid-handle writes silently dropped), the write log is
exactly the accepted writes in global call order; `flush` does not abort,
and returns the spec-side rendered rows — one per write-log entry, in that
order — joined by the configured newline with no trailing newline; with an
empty write log it returns the empty string. -/
theorem c1_ordered_flush (r0 : Renderer) (ws : List (Nat × List Str))
    (h0 : ValidInit r0) :
    ((writeAll r0 ws).write_logs =
        acceptedLog (r0.rules.map (fun rule => rule.1.columns.length)) ws) ∧
    (∃ rows rules',
      flushRowsSpec (writeAll r0 ws).columns (writeAll r0 ws).write_logs
          (writeAll r0 ws).rules = some (rows, rules') ∧
      rows.length = (writeAll r0 ws).write_logs.length ∧
      ∃ r', (writeAll r0 ws).flush =
        some (joinRows (writeAll r0 ws).newline rows, r')) ∧
    ((writeAll r0 ws).write_logs = [] →
      ∃ r', (writeAll r0 ws).flush = some ([], r')) := by
  have hinv0 := validInit_inv r0 h0
  have hinv := writeAll_inv ws r0 hinv0
  have hlog := writeAll_log ws r0 hinv0
  rw [h0.1] at hlog
  simp only [List.nil_append] at hlog
  obtain ⟨rows, rules', hspec, hrows⟩ :=
    flushRowsSpec_ok (writeAll r0 ws).columns (writeAll r0 ws).write_logs
      (writeAll r0 ws).rules hinv
  have hflush : (writeAll r0 ws).flush =
      some (joinRows (writeAll r0 ws).newline rows,
        { writeAll r0 ws with
          columns := rules'.foldl (fun s rule => rule.1.reset s)
            (writeAll r0 ws).columns
          , rules := rules', write_logs := [] }) := by
    unfold Renderer.flush
    rw [flushLoop_eq_join, hspec]
    dsimp only [Option.map]
    rw [joinPre_false]
  refine ⟨hlog, ⟨rows, rules', hspec, hrows, _, hflush⟩, fun hempty => ?_⟩
  have hrownil : rows = [] := by
    rw [hempty] at hrows
    exact List.length_eq_zero.mp (by simpa using hrows)
  rw [hrownil] at hflush
  exact ⟨_, hflush⟩

/-- C1 witness: the ordered-flush theorem applied to the concrete two-layout
renderer `c1r0` (the layouts share a column cell) and the interleaved write
sequence `c1ws`, which includes a shape-mismatched write and a write to an
unregistered handle. -/
theorem c1_witness :
    ((writeAll c1r0 c1ws).write_logs =
        acceptedLog (c1r0.rules.map (fun rule => rule.1.columns.length)) c1ws) ∧
    (∃ rows rules',
      flushRowsSpec (writeAll c1r0 c1ws).columns (writeAll c1r0 c1ws).write_logs
          (writeAll c1r0 c1ws).rules = some (rows, rules') ∧
      rows.length = (writeAll c1r0 c1ws).write_logs.length ∧
      ∃ r', (writeAll c1r0 c1ws).flush =
        some (joinRows (writeAll c1r0 c1ws).newline rows, r')) ∧
    ((writeAll c1r0 c1ws).write_logs = [] →
      ∃ r', (writeAll c1r0 c1ws).flush = some ([], r')) :=
  c1_ordered_flush c1r0 c1ws (by unfold ValidInit; decide)
